import Mathlib

/-!
Verification of the automated narrated demo orchestrator in
`src/static/js/demo.js` (the feature-complete variant, lines 1-873).

The development shallowly embeds the orchestrator's components:

* `TTS` — the narration audio cache (`_ttsCache`, `demoSpeak`,
  `_fetchAndPlay`, `demoSpeakBrowser`, `demoPreCacheAudio`);
* `VQ` — the voice-query driver (`demoVoiceQuery`), as a millisecond-level
  event simulation of its audio/typewriter join;
* `Poll` — the `pollWait` closure of `runNextDemoStep`, extracted as a
  fuel-indexed recursion over poll ticks;
* `Runner` — the step runner (`runNextDemoStep`, `stopDemo`, `runDemo`,
  `demoPrepare`, `demoStart`) as a defunctionalized event loop over a
  state carrying the tracked-timer list `demoTimeouts`, the playing audio
  handle `demoAudio`, the browser speech-synthesis utterance, the
  voice-query join flags, and a timestamped observation log.

Machine details that are pure presentation (overlay CSS, chat scrolling,
toasts, the on-screen timer element) are omitted; every field and branch
that the claims mention is modelled from the source.
-/

namespace TTS

/-- One step of narration-text cleaning: collapse each maximal run of
newline characters to `". "`, mirroring the JS `replace(/\n+/g, ". ")`.
The `inRun` flag records whether the previous character was a newline. -/
def collapseNLAux (inRun : Bool) : List Char → List Char
  | [] => []
  | c :: rest =>
    if c = '\n' then
      if inRun then collapseNLAux true rest
      else '.' :: ' ' :: collapseNLAux true rest
    else c :: collapseNLAux false rest

/-- The narration-text normalization applied by `demoSpeak` and
`_collectDemoLines`:
`text.replace(/\*\*/g, "").replace(/`/g, "").replace(/\n+/g, ". ")`. -/
def cleanText (s : String) : String :=
  String.mk (collapseNLAux false ((s.replace "**" "").replace "`" "").data)

/-- A client-side cache value: `placeholder` is the `null` sentinel written
by `demoPreCacheAudio` while its fetch is in flight; `blob` is a resolved
audio blob (blobs are abstracted as naturals). -/
inductive CacheVal where
  | placeholder : CacheVal
  | blob : Nat → CacheVal
deriving DecidableEq, Repr

/-- The in-memory `_ttsCache`, an association list keyed by the
`"voice:text"` string produced by `_ttsCacheKey`. -/
abbrev Cache := List (String × CacheVal)

/-- `_ttsCacheKey(text, voice)` from the source: `voice + ":" + text`. -/
def ttsCacheKey (text voice : String) : String := voice ++ ":" ++ text

def cacheGet (c : Cache) (k : String) : Option CacheVal :=
  match c with
  | [] => none
  | (k', v) :: rest => if k' = k then some v else cacheGet rest k

def cacheSet (c : Cache) (k : String) (v : CacheVal) : Cache :=
  match c with
  | [] => [(k, v)]
  | (k', v') :: rest =>
    if k' = k then (k', v) :: rest else (k', v') :: cacheSet rest k v

/-- Environment for one `demoSpeak` call: what the `/api/tts` endpoint
would answer (`some blob` for an ok response, `none` for a network error
or non-ok status), and whether `window.speechSynthesis` exists. -/
structure SpeakEnv where
  fetchResult : Option Nat
  synthAvailable : Bool

/-- How the narration line ends up being produced, and hence through which
path the `onEnd` continuation will eventually be invoked. -/
inductive NarrOutcome where
  | playedCached : Nat → NarrOutcome
  | playedFetched : Nat → NarrOutcome
  | browserSpoke : NarrOutcome
  | onEndTimer : Nat → NarrOutcome
deriving DecidableEq, Repr

structure SpeakResult where
  cache : Cache
  fetches : Nat
  outcome : NarrOutcome
deriving DecidableEq, Repr

/-- `demoSpeakBrowser(text, onEnd)`: if `window.speechSynthesis` is absent
the `onEnd` continuation is scheduled on a fixed 100ms timer; otherwise a
browser utterance is spoken and `onEnd` fires on its end/error event. -/
def demoSpeakBrowser (synthAvailable : Bool) : NarrOutcome :=
  if synthAvailable then .browserSpoke else .onEndTimer 100

/-- `_fetchAndPlay(text, voice, key, onEnd)`: POST to `/api/tts`; on an ok
response cache the blob and play it; on any error fall through to
`demoSpeakBrowser`. Exactly one network request is issued either way. -/
def fetchAndPlay (env : SpeakEnv) (c : Cache) (key : String) : SpeakResult :=
  match env.fetchResult with
  | some b => { cache := cacheSet c key (.blob b), fetches := 1, outcome := .playedFetched b }
  | none => { cache := c, fetches := 1, outcome := demoSpeakBrowser env.synthAvailable }

/-- `demoSpeak(text, onEnd, voice)`: clean the text, default the voice to
`"narrator"`, look the `(voice, cleanedText)` key up in `_ttsCache`; a
truthy (blob) hit plays immediately with no fetch; a miss — including the
falsy `null` placeholder — goes to `_fetchAndPlay`. -/
def demoSpeak (env : SpeakEnv) (c : Cache) (text : String) (voice : Option String) :
    SpeakResult :=
  let clean := cleanText text
  let voiceName := voice.getD "narrator"
  let key := ttsCacheKey clean voiceName
  match cacheGet c key with
  | some (.blob b) => { cache := c, fetches := 0, outcome := .playedCached b }
  | _ => fetchAndPlay env c key

/-- The synchronous part of one iteration of `demoPreCacheAudio`'s loop for
a single collected line (already at the point where `_collectDemoLines` has
cleaned it — we clean here to mirror that composition): skip if the key is
present, else write the `null` placeholder and issue the warm-up fetch.
Returns the new cache and the number of network requests issued. -/
def demoPreCacheLine (c : Cache) (text voice : String) : Cache × Nat :=
  let key := ttsCacheKey (cleanText text) voice
  if (cacheGet c key).isSome then (c, 0)
  else (cacheSet c key .placeholder, 1)

theorem cacheGet_cacheSet (c : Cache) (k : String) (v : CacheVal) :
    cacheGet (cacheSet c k v) k = some v := by
  induction c with
  | nil => simp [cacheSet, cacheGet]
  | cons hd tl ih =>
    obtain ⟨k', v'⟩ := hd
    by_cases h : k' = k <;> simp [cacheSet, cacheGet, h, ih]

end TTS

namespace VQ

/-!
`demoVoiceQuery(text, callback)` sets two flags, `typeDone` and
`speakDone`; `checkDone` invokes `callback` once both are set.  The audio
(`demoSpeak(text, ...)`) ends at some time `Ta`; the typewriter interval
ticks every 40ms, typing one character per tick while `i < text.length`
and setting `typeDone` on the following tick — so the reveal completes at
`40 * (text.length + 1)` ms.  We simulate millisecond by millisecond; at a
millisecond that is both the audio end and a tick, the audio callback runs
first (the result is insensitive to that order).  `demoRunning` is assumed
to stay true throughout (no concurrent `stopDemo`).
-/

/-- The local state of one `demoVoiceQuery` call: characters typed so far
(`i` in the source), the two join flags, and the time at which `callback`
fired, if it has. -/
structure State where
  typedChars : Nat
  typeDone : Bool
  speakDone : Bool
  fired : Option Nat
deriving DecidableEq, Repr

/-- `checkDone`: fire the completion callback iff both sides are done (it
can only actually fire once, since each flag-setting event happens once). -/
def checkDone (t : Nat) (s : State) : State :=
  if s.typeDone && s.speakDone && s.fired.isNone then { s with fired := some t } else s

/-- The `onEnd` of the inner `demoSpeak`: `speakDone = true; checkDone()`. -/
def audioEnd (t : Nat) (s : State) : State :=
  checkDone t { s with speakDone := true }

/-- One tick of the 40ms typewriter interval: type the next character
while `i < text.length`, else clear the interval, set `typeDone`, and run
`checkDone`.  (After `typeDone` the interval has been cleared, so a tick
is a no-op.) -/
def typeTick (n t : Nat) (s : State) : State :=
  if s.typeDone then s
  else if s.typedChars < n then { s with typedChars := s.typedChars + 1 }
  else checkDone t { s with typeDone := true }

def initState : State := ⟨0, false, false, none⟩

/-- Simulate `demoVoiceQuery` for `t` milliseconds: the audio-end event at
time `Ta`, typewriter ticks at each positive multiple of 40. -/
def runAux (Ta n : Nat) : Nat → State
  | 0 => initState
  | t + 1 =>
    let s1 := runAux Ta n t
    let s2 := if t + 1 = Ta then audioEnd (t + 1) s1 else s1
    if (t + 1) % 40 = 0 then typeTick n (t + 1) s2 else s2

/-- The state of `demoVoiceQuery` on a text of length `n`, with audio
ending at `Ta`, observed at time `T`. -/
def demoVoiceQuery (Ta n T : Nat) : State := runAux Ta n T

/-- Closed form of the simulation (for `0 < Ta`). -/
def closedForm (Ta n t : Nat) : State :=
  ⟨min n (t / 40),
   decide (40 * (n + 1) ≤ t),
   decide (Ta ≤ t),
   if Ta ≤ t ∧ 40 * (n + 1) ≤ t then some (max Ta (40 * (n + 1))) else none⟩

@[simp] theorem checkDone_typedChars (t : Nat) (s : State) :
    (checkDone t s).typedChars = s.typedChars := by
  unfold checkDone; split <;> rfl

@[simp] theorem checkDone_typeDone (t : Nat) (s : State) :
    (checkDone t s).typeDone = s.typeDone := by
  unfold checkDone; split <;> rfl

@[simp] theorem checkDone_speakDone (t : Nat) (s : State) :
    (checkDone t s).speakDone = s.speakDone := by
  unfold checkDone; split <;> rfl

@[simp] theorem audioEnd_typedChars (t : Nat) (s : State) :
    (audioEnd t s).typedChars = s.typedChars := by
  unfold audioEnd; simp

@[simp] theorem audioEnd_typeDone (t : Nat) (s : State) :
    (audioEnd t s).typeDone = s.typeDone := by
  unfold audioEnd; simp

@[simp] theorem audioEnd_speakDone (t : Nat) (s : State) :
    (audioEnd t s).speakDone = true := by
  unfold audioEnd; simp

@[simp] theorem typeTick_speakDone (n t : Nat) (s : State) :
    (typeTick n t s).speakDone = s.speakDone := by
  unfold typeTick; split_ifs <;> simp

/-- The audio side of the join: `speakDone` becomes true exactly when the
narration audio has ended. -/
theorem speakDone_runAux (Ta n : Nat) (hTa : 0 < Ta) :
    ∀ t, (runAux Ta n t).speakDone = decide (Ta ≤ t) := by
  intro t
  induction t with
  | zero =>
    simp only [runAux, initState]
    symm
    simp only [decide_eq_false_iff_not]
    omega
  | succ t ih =>
    simp only [runAux]
    set s2 := if t + 1 = Ta then audioEnd (t + 1) (runAux Ta n t) else runAux Ta n t with hs2
    have hsp : s2.speakDone = decide (Ta ≤ t + 1) := by
      rw [hs2]
      by_cases hA : t + 1 = Ta
      · rw [if_pos hA, audioEnd_speakDone]
        symm
        simp only [decide_eq_true_eq]
        omega
      · rw [if_neg hA, ih]
        simp only [decide_eq_decide]
        omega
    by_cases hB : (t + 1) % 40 = 0
    · rw [if_pos hB, typeTick_speakDone, hsp]
    · rw [if_neg hB, hsp]

/-- The typewriter side of the join: after `t` milliseconds,
`min n (t / 40)` characters have been revealed, and `typeDone` is set
exactly from time `40 * (n + 1)` on. -/
theorem type_runAux (Ta n : Nat) :
    ∀ t, (runAux Ta n t).typedChars = min n (t / 40) ∧
         (runAux Ta n t).typeDone = decide (40 * (n + 1) ≤ t) := by
  intro t
  induction t with
  | zero =>
    refine ⟨by simp [runAux, initState], ?_⟩
    simp only [runAux, initState]
    symm
    simp only [decide_eq_false_iff_not]
    omega
  | succ t ih =>
    obtain ⟨ihc, ihd⟩ := ih
    simp only [runAux]
    set s2 := if t + 1 = Ta then audioEnd (t + 1) (runAux Ta n t) else runAux Ta n t with hs2
    have hc2 : s2.typedChars = min n (t / 40) := by
      rw [hs2]; split <;> simp [ihc]
    have hd2 : s2.typeDone = decide (40 * (n + 1) ≤ t) := by
      rw [hs2]; split <;> simp [ihd]
    by_cases hB : (t + 1) % 40 = 0
    · rw [if_pos hB]
      unfold typeTick
      by_cases hM : 40 * (n + 1) ≤ t
      · rw [if_pos (by rw [hd2]; simp [hM])]
        refine ⟨by rw [hc2]; omega, ?_⟩
        rw [hd2]
        simp only [decide_eq_decide]
        omega
      · rw [if_neg (by rw [hd2]; simp [hM])]
        by_cases hlt : s2.typedChars < n
        · rw [if_pos hlt]
          have hfuel : min n (t / 40) < n := by rw [← hc2]; exact hlt
          refine ⟨?_, ?_⟩
          · show s2.typedChars + 1 = min n ((t + 1) / 40)
            rw [hc2]
            omega
          · show s2.typeDone = decide (40 * (n + 1) ≤ t + 1)
            rw [hd2]
            simp only [decide_eq_decide]
            omega
        · rw [if_neg hlt]
          have hge : ¬ min n (t / 40) < n := by rw [← hc2]; exact hlt
          refine ⟨?_, ?_⟩
          · rw [checkDone_typedChars]
            show s2.typedChars = min n ((t + 1) / 40)
            rw [hc2]
            omega
          · rw [checkDone_typeDone]
            show true = decide (40 * (n + 1) ≤ t + 1)
            symm
            simp only [decide_eq_true_eq]
            omega
    · rw [if_neg hB]
      refine ⟨by rw [hc2]; omega, ?_⟩
      rw [hd2]
      simp only [decide_eq_decide]
      omega

theorem checkDone_fired (t : Nat) (s : State) :
    (checkDone t s).fired =
      if s.typeDone = true ∧ s.speakDone = true ∧ s.fired = none then some t
      else s.fired := by
  unfold checkDone
  split_ifs with h1 h2 <;>
    simp_all [Option.isNone_iff_eq_none]

theorem audioEnd_fired (t : Nat) (s : State) :
    (audioEnd t s).fired =
      if s.typeDone = true ∧ s.fired = none then some t else s.fired := by
  unfold audioEnd
  rw [checkDone_fired]
  simp

/-- The join itself: the completion callback has fired, with timestamp
`max Ta (40 * (n + 1))`, exactly when both the audio end (at `Ta`) and the
typewriter completion (at `40 * (n + 1)`) have happened. -/
theorem fired_runAux (Ta n : Nat) (hTa : 0 < Ta) :
    ∀ t, (runAux Ta n t).fired =
      if Ta ≤ t ∧ 40 * (n + 1) ≤ t then some (max Ta (40 * (n + 1))) else none := by
  intro t
  induction t with
  | zero =>
    simp only [runAux, initState]
    rw [if_neg (by omega)]
  | succ t ih =>
    have hsp : (runAux Ta n t).speakDone = decide (Ta ≤ t) := speakDone_runAux Ta n hTa t
    obtain ⟨htc, htd⟩ := type_runAux Ta n t
    simp only [runAux]
    set s1 := runAux Ta n t with hs1
    set s2 := if t + 1 = Ta then audioEnd (t + 1) s1 else s1 with hs2
    have hc2 : s2.typedChars = min n (t / 40) := by
      rw [hs2]; split <;> simp [htc]
    have hd2 : s2.typeDone = decide (40 * (n + 1) ≤ t) := by
      rw [hs2]; split <;> simp [htd]
    have hsp2 : s2.speakDone = decide (Ta ≤ t + 1) := by
      rw [hs2]
      by_cases hA : t + 1 = Ta
      · rw [if_pos hA, audioEnd_speakDone]
        symm
        simp only [decide_eq_true_eq]
        omega
      · rw [if_neg hA, hsp]
        simp only [decide_eq_decide]
        omega
    have hmax : Ta ⊔ 40 * (n + 1) = max Ta (40 * (n + 1)) := rfl
    have hf2 : s2.fired =
        if Ta ≤ t + 1 ∧ 40 * (n + 1) ≤ t then some (max Ta (40 * (n + 1))) else none := by
      rw [hs2]
      by_cases hA : t + 1 = Ta
      · rw [if_pos hA, audioEnd_fired]
        have hf1 : s1.fired = none := by rw [ih, if_neg (by omega)]
        by_cases hM : 40 * (n + 1) ≤ t
        · rw [if_pos ⟨by rw [htd]; simp [hM], hf1⟩, if_pos ⟨by omega, hM⟩]
          have : max Ta (40 * (n + 1)) = Ta := by
            rcases Nat.le_total Ta (40 * (n + 1)) with h | h <;>
              simp [Nat.max_eq_left, Nat.max_eq_right, h] <;> omega
          rw [this, ← hA]
        · rw [if_neg (by rw [htd]; simp [hM]), hf1, if_neg (by omega)]
      · rw [if_neg hA, ih]
        by_cases hc : Ta ≤ t ∧ 40 * (n + 1) ≤ t
        · rw [if_pos hc, if_pos (by omega)]
        · rw [if_neg hc, if_neg (by omega)]
    by_cases hB : (t + 1) % 40 = 0
    · rw [if_pos hB]
      unfold typeTick
      by_cases hM : 40 * (n + 1) ≤ t
      · rw [if_pos (by rw [hd2]; simp [hM]), hf2]
        by_cases hc : Ta ≤ t + 1
        · rw [if_pos (by omega), if_pos (by omega)]
        · rw [if_neg (by omega), if_neg (by omega)]
      · rw [if_neg (by rw [hd2]; simp [hM])]
        by_cases hlt : s2.typedChars < n
        · rw [if_pos hlt]
          have h40 : min n (t / 40) < n := by rw [← hc2]; exact hlt
          rw [hf2, if_neg (by omega), if_neg (by omega)]
        · rw [if_neg hlt]
          have h40 : ¬ min n (t / 40) < n := by rw [← hc2]; exact hlt
          have hMeq : 40 * (n + 1) = t + 1 := by omega
          rw [checkDone_fired]
          by_cases hc : Ta ≤ t + 1
          · have hf2n : s2.fired = none := by rw [hf2, if_neg (by omega)]
            rw [if_pos ⟨rfl, by rw [hsp2]; simp [hc], hf2n⟩, if_pos ⟨hc, by omega⟩]
            have : max Ta (40 * (n + 1)) = 40 * (n + 1) := by
              rcases Nat.le_total Ta (40 * (n + 1)) with h | h <;>
                simp [Nat.max_eq_left, Nat.max_eq_right, h] <;> omega
            rw [this, hMeq]
          · rw [if_neg (by rw [hsp2]; simp [hc]), hf2,
              if_neg (by omega), if_neg (by omega)]
    · rw [if_neg hB, hf2]
      by_cases hc : Ta ≤ t + 1 ∧ 40 * (n + 1) ≤ t
      · rw [if_pos hc, if_pos (by omega)]
      · rw [if_neg hc, if_neg (by omega)]

end VQ

namespace Poll

/-!
The `pollWait` closure inside `runNextDemoStep` (the `step.waitFor`
branch), extracted on its own.  `started` is captured with `Date.now()`
when the *step is entered* — before its narration plays; `maxWait` is
`step.waitTimeout || 45000`.  Each tick runs

    if (step.waitFor() || Date.now() - started > maxWait) advanceAfterWait();
    else { const t = setTimeout(pollWait, 1000); demoTimeouts.push(t); }

The first tick is scheduled for `narration end + step.pauseAfter` when the
step has narration, or `entry + 500` when it does not.  `demoRunning` is
assumed true throughout (no concurrent `stopDemo`).  The predicate is a
function of the current time, standing for the externally-evolving DOM
condition the closure reads.
-/

/-- Run the poll loop from tick time `t`: returns the time at which
`advanceAfterWait()` is called, or `none` if the fuel runs out first.
Each recursive call is one 1000ms-later tick. -/
def pollWaitRun (p : Nat → Bool) (started maxWait : Nat) : Nat → Nat → Option Nat
  | 0, _ => none
  | fuel + 1, t =>
    if p t || decide (maxWait < t - started) then some t
    else pollWaitRun p started maxWait fuel (t + 1000)

/-- With a predicate that never becomes true, polling advances at the
first tick strictly after `started + maxWait`: never at or before the
deadline, and at most one poll interval after it (or at the very first
tick, if polling begins only after the deadline has already passed). -/
theorem pollWaitRun_timeout (p : Nat → Bool) (hp : ∀ t, p t = false)
    (started maxWait : Nat) :
    ∀ fuel t0, started ≤ t0 → started + maxWait < t0 + 1000 * fuel →
      ∃ tAdv, pollWaitRun p started maxWait (fuel + 1) t0 = some tAdv ∧
        started + maxWait < tAdv ∧ tAdv ≤ max (started + maxWait + 1000) t0 := by
  intro fuel
  induction fuel with
  | zero =>
    intro t0 h0 hlt
    refine ⟨t0, ?_, by omega, by omega⟩
    unfold pollWaitRun
    rw [hp t0, Bool.false_or, if_pos (by simp only [decide_eq_true_eq]; omega)]
  | succ fuel ih =>
    intro t0 h0 hlt
    by_cases hdone : maxWait < t0 - started
    · refine ⟨t0, ?_, by omega, by omega⟩
      unfold pollWaitRun
      rw [hp t0, Bool.false_or, if_pos (by simp only [decide_eq_true_eq]; omega)]
    · obtain ⟨tAdv, heq, hgt, hle⟩ := ih (t0 + 1000) (by omega) (by omega)
      refine ⟨tAdv, ?_, hgt, by omega⟩
      unfold pollWaitRun
      rw [hp t0, Bool.false_or, if_neg (by simp only [decide_eq_true_eq]; omega)]
      exact heq

end Poll

namespace Runner

/-!
The step runner of `demo.js`, as a defunctionalized event loop.

State mirrors the module-level mutable variables: `demoRunning`,
`demoStepIndex`, the tracked-timer list `demoTimeouts`, the playing
`demoAudio` element, the active browser speech-synthesis utterance, and
the typewriter state of an in-flight `demoVoiceQuery`.  Timer callbacks
and `demoSpeak` `onEnd` continuations are defunctionalized into the
closures that actually occur in `runNextDemoStep`.  Purely presentational
work (overlay, chat panel, toasts, scrolling, the timer readout) is
dropped; the 500ms `removeDemoOverlay` timer of `stopDemo` is kept as an
explicitly *untracked* timer, as in the source.  Narration playback is
abstracted by an environment oracle assigning each narration text a
duration and a playback path (cached/fetched blob audio, browser speech
synthesis, or the no-synthesis 100ms fallback timer); the `TTS` namespace
verifies that `demoSpeak` always lands in one of these paths.
-/

/-- Whether a step's `action` callback returns normally or throws. -/
inductive ActKind where
  | ok : ActKind
  | throws : ActKind
deriving DecidableEq, Repr

/-- A record of `DEMO_STEPS`: the fields of the step objects pushed by
`demoStep(...)` and the literal objects in `buildDemoSteps`.  A `waitTimeout`
or `pauseAfter` of `0` is falsy in JS, so `x || d` defaults them. -/
structure Step where
  label : Option String := none
  narration : Option String := none
  action : Option ActKind := none
  voiceQuery : Option String := none
  waitForP : Option (Nat → Bool) := none
  waitTimeout : Nat := 0
  resultNarration : Option String := none
  pauseAfter : Nat := 0

/-- How `demoSpeak` ends up playing a given text (see `TTS.demoSpeak`):
blob audio (cache hit or successful fetch), browser speech synthesis
(fetch failed, synthesis available), or no synthesis at all (`onEnd` on a
bare 100ms timeout). -/
inductive SpeakPath where
  | blobAudio : SpeakPath
  | browser : SpeakPath
  | unavailable : SpeakPath
deriving DecidableEq, Repr

/-- The static environment of a run: the step registry and the narration
playback oracle. -/
structure Env where
  steps : List Step
  dur : String → Nat
  path : String → SpeakPath

def Env.step (env : Env) (i : Nat) : Step := env.steps.getD i {}

/-- Tracked timer callbacks: the only two closures ever pushed onto
`demoTimeouts` are `runNextDemoStep` and `pollWait` (which captures its
step and its `started` timestamp). -/
inductive Cb where
  | runNext : Cb
  | poll : Nat → Nat → Cb
deriving DecidableEq, Repr

/-- The `onEnd` continuations passed to `demoSpeak` by `runNextDemoStep`
and `demoVoiceQuery`. -/
inductive SpeakCont where
  | afterWaitNarr : Nat → Nat → SpeakCont
  | afterResultNarr : Nat → SpeakCont
  | afterPlainNarr : Nat → SpeakCont
  | startVQ : Nat → SpeakCont
  | vqSpeak : Nat → SpeakCont
deriving DecidableEq, Repr

/-- Untracked timers: `stopDemo`'s overlay-removal timeout, the deferred
`() => stopDemo()` of the end-of-steps branch, and `demoSpeakBrowser`'s
100ms `onEnd` fallback — none of these are pushed onto `demoTimeouts`. -/
inductive UCb where
  | removeOverlay : UCb
  | deferredStop : UCb
  | fallbackOnEnd : SpeakCont → UCb
deriving DecidableEq, Repr

/-- The typewriter/join state of an in-flight `demoVoiceQuery`:
`typeEndsAt` is when the interval's final tick sets `typeDone`. -/
structure VQPend where
  idx : Nat
  typeEndsAt : Nat
  typeDone : Bool
  speakDone : Bool
deriving DecidableEq, Repr

/-- Observations logged by the model (ghost state; no transition reads it). -/
inductive Ev where
  | visited : Nat → Ev
  | actionRan : Nat → Ev
  | actionThrew : Nat → Ev
  | scheduledAdvance : Nat → Ev
  | advancedAfterWait : Nat → Ev
  | firedTracked : Ev
  | stopped : Ev
deriving DecidableEq, Repr

structure DState where
  running : Bool
  stepIndex : Nat
  timeouts : List (Nat × Cb)
  untracked : List (Nat × UCb)
  audio : Option (Nat × SpeakCont)
  speech : Option (Nat × SpeakCont)
  vq : Option VQPend
  now : Nat
  log : List (Nat × Ev)
deriving DecidableEq, Repr

/-- JS `x || d` on numbers: `0` is falsy. -/
def jsOr (n d : Nat) : Nat := if n = 0 then d else n

/-- `const t = setTimeout(cb, delay); demoTimeouts.push(t);` -/
def pushT (delay : Nat) (cb : Cb) (s : DState) : DState :=
  { s with timeouts := s.timeouts ++ [(s.now + delay, cb)] }

/-- A `setTimeout` whose id is *not* pushed onto `demoTimeouts`. -/
def pushU (delay : Nat) (u : UCb) (s : DState) : DState :=
  { s with untracked := s.untracked ++ [(s.now + delay, u)] }

/-- `demoSpeak(text, onEnd)` as seen by the runner: stop any playing
audio, cancel any browser speech, then play through the path the audio
cache resolves to (`TTS.demoSpeak`), with `onEnd` to fire at the end. -/
def demoSpeak (env : Env) (txt : String) (k : SpeakCont) (s : DState) : DState :=
  let s1 := { s with audio := none, speech := none }
  match env.path txt with
  | .blobAudio => { s1 with audio := some (s1.now + env.dur txt, k) }
  | .browser => { s1 with speech := some (s1.now + env.dur txt, k) }
  | .unavailable => pushU 100 (.fallbackOnEnd k) s1

/-- `stopDemo()`: set `demoRunning = false`, clear every tracked timer,
pause and drop `demoAudio`, schedule the (untracked) overlay removal.
The source does *not* call `speechSynthesis.cancel()` here, so an active
browser utterance keeps playing, and the typewriter interval of a
voice query is left to die on its own next tick. UI rollback
(`demoChatCenter`, solo mode, replay, detail panel, zone reload) is
presentation-only and not modelled. -/
def stopDemo (s : DState) : DState :=
  { s with
    running := false
    timeouts := []
    audio := none
    untracked := s.untracked ++ [(s.now + 500, .removeOverlay)]
    log := s.log ++ [(s.now, .stopped)] }

/-- `demoVoiceQuery(step.voiceQuery, cb)`: narrate the query text via
`demoSpeak` and start the 40ms/char typewriter; the final interval tick
(one past the last character) sets `typeDone`. -/
def startVQ (env : Env) (idx : Nat) (s : DState) : DState :=
  let q := (env.step idx).voiceQuery.getD ""
  let s1 := demoSpeak env q (.vqSpeak idx) s
  { s1 with vq := some ⟨idx, s1.now + 40 * (q.length + 1), false, false⟩ }

/-- The completion callback `runNextDemoStep` hands to `demoVoiceQuery`:
`if (!demoRunning) return; chatSending = false; sendMessage();
 const t = setTimeout(runNextDemoStep, step.pauseAfter || 400); push(t)`. -/
def vqComplete (env : Env) (idx : Nat) (s : DState) : DState :=
  if s.running then
    pushT (jsOr (env.step idx).pauseAfter 400) .runNext
      { s with vq := none, log := s.log ++ [(s.now, .scheduledAdvance idx)] }
  else { s with vq := none }

/-- The per-step branch logic of `runNextDemoStep`, after the label,
chat append and `action()` have run: the `waitFor` branch, the
`voiceQuery` branch, and the plain branch, in source order. -/
def continueStep (env : Env) (idx : Nat) (step : Step) (s : DState) : DState :=
  match step.waitForP with
  | some _ =>
    match step.narration with
    | some txt => demoSpeak env txt (.afterWaitNarr idx s.now) s
    | none => pushT 500 (.poll idx s.now) s
  | none =>
    match step.voiceQuery with
    | some _ =>
      match step.narration with
      | some txt => demoSpeak env txt (.startVQ idx) s
      | none => startVQ env idx s
    | none =>
      match step.narration with
      | some txt => demoSpeak env txt (.afterPlainNarr idx) s
      | none =>
        pushT (jsOr step.pauseAfter 600) .runNext
          { s with log := s.log ++ [(s.now, .scheduledAdvance idx)] }

/-- `runNextDemoStep()`.  End-of-steps / not-running: if browser speech is
still `speaking`, defer `stopDemo` on an untracked 500ms timer, else stop
immediately (note: `demoAudio` is *not* consulted).  Otherwise take the
current step, increment the cursor, run its `action` — an exception there
propagates out, skipping the whole rest of the function — and dispatch on
its advancement mode. -/
def runNextDemoStep (env : Env) (s : DState) : DState :=
  if s.running = false ∨ env.steps.length ≤ s.stepIndex then
    if s.speech.isSome then pushU 500 .deferredStop s
    else stopDemo s
  else
    let idx := s.stepIndex
    let step := env.step idx
    let s1 := { s with stepIndex := idx + 1, log := s.log ++ [(s.now, .visited idx)] }
    match step.action with
    | some .throws => { s1 with log := s1.log ++ [(s1.now, .actionThrew idx)] }
    | some .ok => continueStep env idx step
        { s1 with log := s1.log ++ [(s1.now, .actionRan idx)] }
    | none => continueStep env idx step s1

/-- `advanceAfterWait` from the `waitFor` branch: guarded by `demoRunning`;
speaks `resultNarration` when present (advancement is then scheduled by
its `onEnd`), else calls `runNextDemoStep()` directly. -/
def advanceAfterWait (env : Env) (idx : Nat) (s : DState) : DState :=
  if s.running then
    let s1 := { s with log := s.log ++ [(s.now, .advancedAfterWait idx)] }
    match (env.step idx).resultNarration with
    | some r => demoSpeak env r (.afterResultNarr idx) s1
    | none => runNextDemoStep env s1
  else s

/-- The `pollWait` closure: guarded by `demoRunning`; advance when the
predicate holds or more than `waitTimeout || 45000` ms have passed since
the step was entered, else re-arm itself on a tracked 1000ms timer. -/
def pollWait (env : Env) (idx started : Nat) (s : DState) : DState :=
  if s.running then
    match (env.step idx).waitForP with
    | some p =>
      if p s.now || decide (jsOr (env.step idx).waitTimeout 45000 < s.now - started) then
        advanceAfterWait env idx s
      else pushT 1000 (.poll idx started) s
    | none => s
  else s

/-- Run a `demoSpeak` `onEnd` continuation (the audio `onended`, the
utterance `onend`, or the 100ms fallback timer). -/
def runCont (env : Env) (k : SpeakCont) (s : DState) : DState :=
  match k with
  | .afterWaitNarr idx started =>
    if s.running then pushT (env.step idx).pauseAfter (.poll idx started) s else s
  | .afterResultNarr idx =>
    if s.running then
      pushT (env.step idx).pauseAfter .runNext
        { s with log := s.log ++ [(s.now, .scheduledAdvance idx)] }
    else s
  | .afterPlainNarr idx =>
    if s.running then
      pushT (env.step idx).pauseAfter .runNext
        { s with log := s.log ++ [(s.now, .scheduledAdvance idx)] }
    else s
  | .startVQ idx => if s.running then startVQ env idx s else s
  | .vqSpeak idx =>
    match s.vq with
    | some v =>
      if v.typeDone then vqComplete env idx { s with vq := some { v with speakDone := true } }
      else { s with vq := some { v with speakDone := true } }
    | none => s

def execCb (env : Env) (cb : Cb) (s : DState) : DState :=
  match cb with
  | .runNext => runNextDemoStep env s
  | .poll idx started => pollWait env idx started s

def execUCb (env : Env) (u : UCb) (s : DState) : DState :=
  match u with
  | .removeOverlay => s
  | .deferredStop => stopDemo s
  | .fallbackOnEnd k => runCont env k s

/-- The pending typewriter event of an in-flight voice query, if any:
once `typeDone` is set the interval has been cleared. -/
def vqPendTime (s : DState) : Option Nat :=
  match s.vq with
  | some v => if v.typeDone then none else some v.typeEndsAt
  | none => none

/-- Fire times of every pending event: tracked timers, untracked timers,
the audio `onended`, the utterance `onend`, the typewriter's final tick. -/
def pendingTimes (s : DState) : List Nat :=
  s.timeouts.map Prod.fst ++ s.untracked.map Prod.fst
    ++ (s.audio.map Prod.fst).toList ++ (s.speech.map Prod.fst).toList
    ++ (vqPendTime s).toList

def minList : List Nat → Option Nat
  | [] => none
  | x :: xs =>
    match minList xs with
    | none => some x
    | some m => some (min x m)

/-- The next event-loop wake-up time, if any work is pending. -/
def earliest (s : DState) : Option Nat := minList (pendingTimes s)

/-- Remove the first timer with fire time `t` from a timer list. -/
def popAt {α : Type} (t : Nat) : List (Nat × α) → Option (α × List (Nat × α))
  | [] => none
  | (ft, cb) :: rest =>
    if ft = t then some (cb, rest)
    else
      match popAt t rest with
      | some (c, l) => some (c, (ft, cb) :: l)
      | none => none

/-- The typewriter interval's decisive tick: `if (!demoRunning)
{ clearInterval; return; }` — else set `typeDone`, run `checkDone`
(completing the join if the audio has already ended). -/
def fireVQ (env : Env) (s0 : DState) : DState :=
  match s0.vq with
  | some v =>
    if s0.running = false then { s0 with vq := none }
    else
      if v.speakDone then vqComplete env v.idx { s0 with vq := some { v with typeDone := true } }
      else { s0 with vq := some { v with typeDone := true } }
  | none => s0

def fireSpeech (env : Env) (t : Nat) (s0 : DState) : DState :=
  match s0.speech with
  | some (ts, k) =>
    if ts = t then runCont env k { s0 with speech := none } else fireVQ env s0
  | none => fireVQ env s0

def fireAudio (env : Env) (t : Nat) (s0 : DState) : DState :=
  match s0.audio with
  | some (ta, k) =>
    if ta = t then runCont env k { s0 with audio := none } else fireSpeech env t s0
  | none => fireSpeech env t s0

/-- One event-loop step: advance the clock to the earliest pending event
and run it.  Among same-time events, tracked timers fire first (in push
order), then untracked timers, then audio end, utterance end, typewriter
tick; the claims under verification are insensitive to this tie order. -/
def loopStep (env : Env) (s : DState) : DState :=
  match earliest s with
  | none => s
  | some t =>
    let s0 := { s with now := t }
    match popAt t s0.timeouts with
    | some (cb, rest) =>
      execCb env cb { s0 with timeouts := rest, log := s0.log ++ [(t, .firedTracked)] }
    | none =>
      match popAt t s0.untracked with
      | some (u, rest) => execUCb env u { s0 with untracked := rest }
      | none => fireAudio env t s0

/-- Run the event loop for (at most) `fuel` events. -/
def run (env : Env) : Nat → DState → DState
  | 0, s => s
  | fuel + 1, s => run env fuel (loopStep env s)

/-- `demoPrepare()`: `if (demoRunning) return;` then reset the run flag,
cursor, and tracked-timer list (warm-up fetches and chat-panel motion are
not modelled). -/
def demoPrepare (s : DState) : DState :=
  if s.running then s
  else { s with running := true, stepIndex := 0, timeouts := [] }

/-- `demoStart()`: begin executing steps (the timer readout element is
presentation-only). -/
def demoStart (env : Env) (s : DState) : DState := runNextDemoStep env s

/-- `runDemo()`: `if (demoRunning) { stopDemo(); return; }
demoPrepare(); demoStart();` -/
def runDemo (env : Env) (s : DState) : DState :=
  if s.running then stopDemo s else demoStart env (demoPrepare s)

/-- The module-level initial state: demo not running, nothing pending. -/
def initState : DState :=
  { running := false, stepIndex := 0, timeouts := [], untracked := []
    audio := none, speech := none, vq := none, now := 0, log := [] }

/-- Quiescence after `stopDemo`: the run flag is down, the tracked-timer
collection is empty, and no audio element is playing. -/
def Stopped (s : DState) : Prop :=
  s.running = false ∧ s.timeouts = [] ∧ s.audio = none

/-- Number of tracked-timer firings recorded in a log. -/
def firedCount (l : List (Nat × Ev)) : Nat :=
  l.countP (fun e => decide (e.2 = Ev.firedTracked))

/-- With the run flag down, every `demoSpeak` `onEnd` continuation is a
no-op on the run flag, tracked timers, audio, and log: each one either
returns at its `if (!demoRunning)` guard or (for the voice-query join)
only updates the join flags. -/
theorem runCont_of_notRunning (env : Env) (k : SpeakCont) (s : DState)
    (h : s.running = false) :
    (runCont env k s).running = false ∧ (runCont env k s).timeouts = s.timeouts ∧
    (runCont env k s).audio = s.audio ∧ (runCont env k s).log = s.log := by
  cases k with
  | afterWaitNarr idx started => simp [runCont, h]
  | afterResultNarr idx => simp [runCont, h]
  | afterPlainNarr idx => simp [runCont, h]
  | startVQ idx => simp [runCont, h]
  | vqSpeak idx =>
    cases hv : s.vq with
    | none => simp [runCont, hv, h]
    | some v =>
      by_cases htd : v.typeDone <;> simp [runCont, hv, htd, vqComplete, h]

theorem stopDemo_stopped (s : DState) : Stopped (stopDemo s) := by
  exact ⟨rfl, rfl, rfl⟩

theorem firedCount_append (l₁ l₂ : List (Nat × Ev)) :
    firedCount (l₁ ++ l₂) = firedCount l₁ + firedCount l₂ := by
  simp [firedCount, List.countP_append]

/-- One event-loop step preserves quiescence and fires no tracked timer:
only untracked timers, a surviving browser utterance, or the typewriter's
dying tick can run, and each is guarded by the run flag. -/
theorem loopStep_stopped (env : Env) (s : DState) (h : Stopped s) :
    Stopped (loopStep env s) ∧ firedCount (loopStep env s).log = firedCount s.log := by
  obtain ⟨hr, ht, ha⟩ := h
  unfold loopStep
  cases he : earliest s with
  | none => exact ⟨⟨hr, ht, ha⟩, rfl⟩
  | some t =>
    dsimp only
    rw [ht]
    simp only [popAt]
    cases hu : popAt t s.untracked with
    | some ur =>
      obtain ⟨u, rest⟩ := ur
      dsimp only
      cases u with
      | removeOverlay => exact ⟨⟨hr, rfl, ha⟩, rfl⟩
      | deferredStop =>
        refine ⟨⟨rfl, rfl, rfl⟩, ?_⟩
        dsimp only [execUCb, stopDemo]
        rw [firedCount_append]
        simp [firedCount]
      | fallbackOnEnd k =>
        have hfacts := runCont_of_notRunning env k
          { s with timeouts := [], untracked := rest, now := t } hr
        exact ⟨⟨hfacts.1, hfacts.2.1, by rw [execUCb, hfacts.2.2.1]; exact ha⟩,
          by rw [execUCb, hfacts.2.2.2]⟩
    | none =>
      dsimp only
      unfold fireAudio
      dsimp only
      rw [ha]
      dsimp only
      unfold fireSpeech
      dsimp only
      cases hs : s.speech with
      | some sk =>
        obtain ⟨ts, k⟩ := sk
        dsimp only
        by_cases hts : ts = t
        · rw [if_pos hts]
          have hfacts := runCont_of_notRunning env k
            { s with timeouts := [], audio := none, now := t, speech := none } hr
          exact ⟨⟨hfacts.1, hfacts.2.1, by rw [hfacts.2.2.1]⟩,
            by rw [hfacts.2.2.2]⟩
        · rw [if_neg hts]
          unfold fireVQ
          dsimp only
          cases hv : s.vq with
          | none =>
            dsimp only
            exact ⟨⟨hr, rfl, rfl⟩, rfl⟩
          | some v =>
            dsimp only
            rw [if_pos hr]
            exact ⟨⟨hr, rfl, rfl⟩, rfl⟩
      | none =>
        dsimp only
        unfold fireVQ
        dsimp only
        cases hv : s.vq with
        | none =>
          dsimp only
          exact ⟨⟨hr, rfl, rfl⟩, rfl⟩
        | some v =>
          dsimp only
          rw [if_pos hr]
          exact ⟨⟨hr, rfl, rfl⟩, rfl⟩

/-- Iterated form: after `stopDemo`, however long the loop keeps running,
the tracked-timer collection stays empty, no audio element exists, the
run flag stays down, and not a single tracked timer ever fires. -/
theorem run_stopped (env : Env) (fuel : Nat) (s : DState) (h : Stopped s) :
    Stopped (run env fuel s) ∧ firedCount (run env fuel s).log = firedCount s.log := by
  induction fuel generalizing s with
  | zero => exact ⟨h, rfl⟩
  | succ fuel ih =>
    obtain ⟨h1, h2⟩ := loopStep_stopped env s h
    obtain ⟨h3, h4⟩ := ih (loopStep env s) h1
    exact ⟨h3, by rw [run, h4, h2]⟩

/-- The sequence of step indices executed so far, in execution order. -/
def visiteds (l : List (Nat × Ev)) : List Nat :=
  l.filterMap (fun e => match e.2 with | Ev.visited i => some i | _ => none)

/-- The cursor invariant: the indices visited so far are strictly
increasing (each step executed at most once, in registry order) and all
below the current cursor. -/
def VisitInv (s : DState) : Prop :=
  (visiteds s.log).Pairwise (· < ·) ∧ ∀ i ∈ visiteds s.log, i < s.stepIndex

theorem visiteds_append (l₁ l₂ : List (Nat × Ev)) :
    visiteds (l₁ ++ l₂) = visiteds l₁ ++ visiteds l₂ := by
  simp [visiteds]

/-- A transition is `Neutral` when it leaves the cursor unchanged and
executes no step (its log additions contain no `visited` entry). -/
def Neutral (f : DState → DState) : Prop :=
  ∀ s, (f s).stepIndex = s.stepIndex ∧ visiteds (f s).log = visiteds s.log

theorem Neutral.visit {f : DState → DState} (hf : Neutral f) (s : DState) :
    s.stepIndex ≤ (f s).stepIndex ∧ (VisitInv s → VisitInv (f s)) := by
  obtain ⟨h1, h2⟩ := hf s
  refine ⟨le_of_eq h1.symm, fun hv => ⟨?_, ?_⟩⟩
  · rw [h2]; exact hv.1
  · intro i hi
    rw [h1]
    exact hv.2 i (h2 ▸ hi)

theorem neutral_pushT (d : Nat) (cb : Cb) : Neutral (pushT d cb) :=
  fun _ => ⟨rfl, rfl⟩

theorem neutral_pushU (d : Nat) (u : UCb) : Neutral (pushU d u) :=
  fun _ => ⟨rfl, rfl⟩

theorem neutral_demoSpeak (env : Env) (txt : String) (k : SpeakCont) :
    Neutral (demoSpeak env txt k) := by
  intro s
  unfold demoSpeak
  cases env.path txt <;> exact ⟨rfl, rfl⟩

theorem neutral_startVQ (env : Env) (idx : Nat) : Neutral (startVQ env idx) := by
  intro s
  unfold startVQ
  obtain ⟨h1, h2⟩ := neutral_demoSpeak env ((env.step idx).voiceQuery.getD "")
    (.vqSpeak idx) s
  exact ⟨h1, h2⟩

theorem neutral_stopDemo : Neutral stopDemo := by
  intro s
  refine ⟨rfl, ?_⟩
  simp [stopDemo, visiteds_append, visiteds]

theorem neutral_vqComplete (env : Env) (idx : Nat) : Neutral (vqComplete env idx) := by
  intro s
  unfold vqComplete
  by_cases hr : s.running
  · rw [if_pos hr]
    refine ⟨rfl, ?_⟩
    simp [pushT, visiteds_append, visiteds]
  · rw [if_neg hr]
    exact ⟨rfl, rfl⟩

theorem neutral_runCont (env : Env) (k : SpeakCont) : Neutral (runCont env k) := by
  intro s
  cases k with
  | afterWaitNarr idx started =>
    unfold runCont
    by_cases hr : s.running <;> simp [hr, pushT]
  | afterResultNarr idx =>
    unfold runCont
    by_cases hr : s.running <;> simp [hr, pushT, visiteds_append, visiteds]
  | afterPlainNarr idx =>
    unfold runCont
    by_cases hr : s.running <;> simp [hr, pushT, visiteds_append, visiteds]
  | startVQ idx =>
    unfold runCont
    dsimp only
    by_cases hr : s.running
    · rw [if_pos hr]; exact neutral_startVQ env idx s
    · rw [if_neg hr]; exact ⟨rfl, rfl⟩
  | vqSpeak idx =>
    unfold runCont
    dsimp only
    cases hv : s.vq with
    | none => exact ⟨rfl, rfl⟩
    | some v =>
      dsimp only
      by_cases htd : v.typeDone
      · rw [if_pos htd]
        obtain ⟨h1, h2⟩ := neutral_vqComplete env idx
          { s with vq := some { v with speakDone := true } }
        exact ⟨h1, h2⟩
      · rw [if_neg htd]
        exact ⟨rfl, rfl⟩

theorem neutral_continueStep (env : Env) (idx : Nat) (step : Step) :
    Neutral (continueStep env idx step) := by
  intro s
  unfold continueStep
  cases step.waitForP with
  | some p =>
    cases step.narration with
    | some txt => exact neutral_demoSpeak env txt _ s
    | none => exact neutral_pushT _ _ s
  | none =>
    cases step.voiceQuery with
    | some q =>
      cases step.narration with
      | some txt => exact neutral_demoSpeak env txt _ s
      | none => exact neutral_startVQ env idx s
    | none =>
      cases step.narration with
      | some txt => exact neutral_demoSpeak env txt _ s
      | none =>
        refine ⟨rfl, ?_⟩
        simp [pushT, visiteds_append, visiteds]

theorem visitInv_bump (s : DState) (t : Nat) (hv : VisitInv s) :
    VisitInv { s with
      stepIndex := s.stepIndex + 1
      log := s.log ++ [(t, Ev.visited s.stepIndex)] } := by
  have hveq : visiteds (s.log ++ [(t, Ev.visited s.stepIndex)]) =
      visiteds s.log ++ [s.stepIndex] := by
    simp [visiteds_append, visiteds]
  constructor
  · show (visiteds (s.log ++ [(t, Ev.visited s.stepIndex)])).Pairwise (· < ·)
    rw [hveq]
    refine List.pairwise_append.mpr ⟨hv.1, List.pairwise_singleton _ _, ?_⟩
    intro a ha b hb
    rw [List.mem_singleton] at hb
    subst hb
    exact hv.2 a ha
  · show ∀ i ∈ visiteds (s.log ++ [(t, Ev.visited s.stepIndex)]), i < s.stepIndex + 1
    rw [hveq]
    intro i hi
    rcases List.mem_append.mp hi with h | h
    · exact Nat.lt_succ_of_lt (hv.2 i h)
    · rw [List.mem_singleton] at h
      omega

theorem visitInv_silent (s : DState) (t : Nat) (e : Ev)
    (he : visiteds [(t, e)] = []) (hv : VisitInv s) :
    VisitInv { s with log := s.log ++ [(t, e)] } := by
  have hveq : visiteds (s.log ++ [(t, e)]) = visiteds s.log := by
    rw [visiteds_append, he, List.append_nil]
  constructor
  · show (visiteds (s.log ++ [(t, e)])).Pairwise (· < ·)
    rw [hveq]
    exact hv.1
  · show ∀ i ∈ visiteds (s.log ++ [(t, e)]), i < s.stepIndex
    rw [hveq]
    exact hv.2

/-- `runNextDemoStep` never rewinds the cursor, and preserves the
visit invariant: the step it executes is exactly the one at the cursor,
above every previously visited index. -/
theorem runNext_visit (env : Env) (s : DState) :
    s.stepIndex ≤ (runNextDemoStep env s).stepIndex ∧
    (VisitInv s → VisitInv (runNextDemoStep env s)) := by
  unfold runNextDemoStep
  by_cases hend : s.running = false ∨ env.steps.length ≤ s.stepIndex
  · rw [if_pos hend]
    by_cases hsp : s.speech.isSome
    · rw [if_pos hsp]
      exact (neutral_pushU 500 .deferredStop).visit s
    · rw [if_neg hsp]
      exact neutral_stopDemo.visit s
  · rw [if_neg hend]
    dsimp only
    cases hac : (env.step s.stepIndex).action with
    | none =>
      dsimp only
      obtain ⟨g1, g2⟩ := (neutral_continueStep env s.stepIndex (env.step s.stepIndex)).visit
        { s with
          stepIndex := s.stepIndex + 1
          log := s.log ++ [(s.now, Ev.visited s.stepIndex)] }
      exact ⟨le_trans (Nat.le_succ _) g1, fun hv => g2 (visitInv_bump s s.now hv)⟩
    | some ak =>
      cases ak with
      | throws =>
        dsimp only
        refine ⟨Nat.le_succ _, fun hv => ?_⟩
        exact visitInv_silent _ _ _ (by simp [visiteds]) (visitInv_bump s s.now hv)
      | ok =>
        dsimp only
        obtain ⟨g1, g2⟩ := (neutral_continueStep env s.stepIndex (env.step s.stepIndex)).visit
          { s with
            stepIndex := s.stepIndex + 1
            log := (s.log ++ [(s.now, Ev.visited s.stepIndex)])
              ++ [(s.now, Ev.actionRan s.stepIndex)] }
        refine ⟨le_trans (Nat.le_succ _) g1, fun hv => g2 ?_⟩
        exact visitInv_silent
          { s with
            stepIndex := s.stepIndex + 1
            log := s.log ++ [(s.now, Ev.visited s.stepIndex)] }
          s.now _ (by simp [visiteds]) (visitInv_bump s s.now hv)

theorem advanceAfterWait_visit (env : Env) (idx : Nat) (s : DState) :
    s.stepIndex ≤ (advanceAfterWait env idx s).stepIndex ∧
    (VisitInv s → VisitInv (advanceAfterWait env idx s)) := by
  unfold advanceAfterWait
  by_cases hr : s.running
  · rw [if_pos hr]
    dsimp only
    cases hres : (env.step idx).resultNarration with
    | some r =>
      dsimp only
      obtain ⟨g1, g2⟩ := (neutral_demoSpeak env r (.afterResultNarr idx)).visit
        { s with log := s.log ++ [(s.now, Ev.advancedAfterWait idx)] }
      exact ⟨g1, fun hv => g2 (visitInv_silent s s.now _ (by simp [visiteds]) hv)⟩
    | none =>
      dsimp only
      obtain ⟨g1, g2⟩ := runNext_visit env
        { s with log := s.log ++ [(s.now, Ev.advancedAfterWait idx)] }
      exact ⟨g1, fun hv => g2 (visitInv_silent s s.now _ (by simp [visiteds]) hv)⟩
  · rw [if_neg hr]
    exact ⟨le_refl _, fun hv => hv⟩

theorem pollWait_visit (env : Env) (idx started : Nat) (s : DState) :
    s.stepIndex ≤ (pollWait env idx started s).stepIndex ∧
    (VisitInv s → VisitInv (pollWait env idx started s)) := by
  unfold pollWait
  by_cases hr : s.running
  · rw [if_pos hr]
    cases hp : (env.step idx).waitForP with
    | some p =>
      dsimp only
      by_cases hc : p s.now || decide (jsOr (env.step idx).waitTimeout 45000 < s.now - started)
      · rw [if_pos hc]
        exact advanceAfterWait_visit env idx s
      · rw [if_neg hc]
        exact (neutral_pushT 1000 (.poll idx started)).visit s
    | none =>
      exact ⟨le_refl _, fun hv => hv⟩
  · rw [if_neg hr]
    exact ⟨le_refl _, fun hv => hv⟩

theorem execCb_visit (env : Env) (cb : Cb) (s : DState) :
    s.stepIndex ≤ (execCb env cb s).stepIndex ∧
    (VisitInv s → VisitInv (execCb env cb s)) := by
  cases cb with
  | runNext => exact runNext_visit env s
  | poll idx started => exact pollWait_visit env idx started s

theorem execUCb_visit (env : Env) (u : UCb) (s : DState) :
    s.stepIndex ≤ (execUCb env u s).stepIndex ∧
    (VisitInv s → VisitInv (execUCb env u s)) := by
  cases u with
  | removeOverlay => exact ⟨le_refl _, fun hv => hv⟩
  | deferredStop => exact neutral_stopDemo.visit s
  | fallbackOnEnd k => exact (neutral_runCont env k).visit s

theorem fireVQ_visit (env : Env) (s : DState) :
    s.stepIndex ≤ (fireVQ env s).stepIndex ∧
    (VisitInv s → VisitInv (fireVQ env s)) := by
  unfold fireVQ
  cases hv : s.vq with
  | none => exact ⟨le_refl _, fun h => h⟩
  | some v =>
    dsimp only
    by_cases hr : s.running = false
    · rw [if_pos hr]
      exact ⟨le_refl _, fun h => h⟩
    · rw [if_neg hr]
      by_cases hsd : v.speakDone
      · rw [if_pos hsd]
        exact (neutral_vqComplete env v.idx).visit
          { s with vq := some { v with typeDone := true } }
      · rw [if_neg hsd]
        exact ⟨le_refl _, fun h => h⟩

theorem fireSpeech_visit (env : Env) (t : Nat) (s : DState) :
    s.stepIndex ≤ (fireSpeech env t s).stepIndex ∧
    (VisitInv s → VisitInv (fireSpeech env t s)) := by
  unfold fireSpeech
  cases hs : s.speech with
  | none => exact fireVQ_visit env s
  | some sk =>
    obtain ⟨ts, k⟩ := sk
    dsimp only
    by_cases hts : ts = t
    · rw [if_pos hts]
      exact (neutral_runCont env k).visit { s with speech := none }
    · rw [if_neg hts]
      exact fireVQ_visit env s

theorem fireAudio_visit (env : Env) (t : Nat) (s : DState) :
    s.stepIndex ≤ (fireAudio env t s).stepIndex ∧
    (VisitInv s → VisitInv (fireAudio env t s)) := by
  unfold fireAudio
  cases ha : s.audio with
  | none => exact fireSpeech_visit env t s
  | some ak =>
    obtain ⟨ta, k⟩ := ak
    dsimp only
    by_cases hta : ta = t
    · rw [if_pos hta]
      exact (neutral_runCont env k).visit { s with audio := none }
    · rw [if_neg hta]
      exact fireSpeech_visit env t s

/-- One event-loop step: the cursor is monotone and the visit invariant
is preserved, whatever event fires. -/
theorem loopStep_visit (env : Env) (s : DState) :
    s.stepIndex ≤ (loopStep env s).stepIndex ∧
    (VisitInv s → VisitInv (loopStep env s)) := by
  unfold loopStep
  cases he : earliest s with
  | none => exact ⟨le_refl _, fun h => h⟩
  | some t =>
    dsimp only
    cases hp : popAt t s.timeouts with
    | some cr =>
      obtain ⟨cb, rest⟩ := cr
      dsimp only
      obtain ⟨g1, g2⟩ := execCb_visit env cb
        { s with
          timeouts := rest
          now := t
          log := s.log ++ [(t, Ev.firedTracked)] }
      exact ⟨g1, fun hv => g2 (visitInv_silent
        { s with timeouts := rest, now := t } t _ (by simp [visiteds]) hv)⟩
    | none =>
      dsimp only
      cases hu : popAt t s.untracked with
      | some ur =>
        obtain ⟨u, rest⟩ := ur
        dsimp only
        exact execUCb_visit env u { s with untracked := rest, now := t }
      | none =>
        dsimp only
        exact fireAudio_visit env t { s with now := t }

/-- Iterated form: over any whole run, `demoStepIndex` is monotone and
the visit invariant is preserved. -/
theorem run_visit (env : Env) (fuel : Nat) (s : DState) :
    s.stepIndex ≤ (run env fuel s).stepIndex ∧
    (VisitInv s → VisitInv (run env fuel s)) := by
  induction fuel generalizing s with
  | zero => exact ⟨le_refl _, fun h => h⟩
  | succ fuel ih =>
    obtain ⟨g1, g2⟩ := loopStep_visit env s
    obtain ⟨g3, g4⟩ := ih (loopStep env s)
    exact ⟨le_trans g1 g3, fun hv => g4 (g2 hv)⟩

theorem demoSpeak_running (env : Env) (txt : String) (k : SpeakCont) (s : DState) :
    (demoSpeak env txt k s).running = s.running := by
  unfold demoSpeak
  cases env.path txt <;> rfl

theorem startVQ_running (env : Env) (idx : Nat) (s : DState) :
    (startVQ env idx s).running = s.running := by
  unfold startVQ
  exact demoSpeak_running env _ _ s

theorem continueStep_running (env : Env) (idx : Nat) (step : Step) (s : DState) :
    (continueStep env idx step s).running = s.running := by
  unfold continueStep
  cases hw : step.waitForP with
  | some p =>
    dsimp only
    cases hn : step.narration with
    | some txt => exact demoSpeak_running env txt _ s
    | none => rfl
  | none =>
    dsimp only
    cases hq : step.voiceQuery with
    | some q =>
      dsimp only
      cases hn : step.narration with
      | some txt => exact demoSpeak_running env txt _ s
      | none => exact startVQ_running env idx s
    | none =>
      dsimp only
      cases hn : step.narration with
      | some txt => exact demoSpeak_running env txt _ s
      | none => rfl

/-- Executing a step that exists leaves the run flag up: nothing in the
per-step branch logic touches `demoRunning`. -/
theorem runNext_running (env : Env) (s : DState) (hr : s.running = true)
    (hlt : s.stepIndex < env.steps.length) :
    (runNextDemoStep env s).running = true := by
  unfold runNextDemoStep
  rw [if_neg (by push_neg; exact ⟨by simp [hr], by omega⟩)]
  dsimp only
  cases hac : (env.step s.stepIndex).action with
  | none =>
    dsimp only
    rw [continueStep_running]
    exact hr
  | some ak =>
    cases ak with
    | throws => exact hr
    | ok =>
      dsimp only
      rw [continueStep_running]
      exact hr

/-- A quiescent state is a fixed point of the whole loop. -/
theorem run_of_fix (env : Env) (s : DState) (h : loopStep env s = s) :
    ∀ fuel, run env fuel s = s := by
  intro fuel
  induction fuel with
  | zero => rfl
  | succ fuel ih => rw [run, h, ih]

end Runner

/-! Concrete registries and states used to exercise the runner. -/

/-- The spec's three-step scenario: a plain narrated step (`pauseAfterMs`
100), a predicate step whose condition becomes true after two failed
1000ms polls, and a trailing plain silent step.  Narration lasts 1000ms
and plays as blob audio. -/
def scenario3 : Runner.Env :=
  { steps := [
      { narration := some "A", pauseAfter := 100 },
      { waitForP := some (fun t => decide (3000 ≤ t)), pauseAfter := 500 },
      {} ]
    dur := fun _ => 1000
    path := fun _ => .blobAudio }

/-- A step whose predicate never becomes true: 5000ms narration,
`pauseAfter` 500 (so polling starts at 5500), `waitTimeout` 6000;
followed by a plain step to observe that expiry is not fatal. -/
def scenarioTimeout : Runner.Env :=
  { steps := [
      { narration := some "N", pauseAfter := 500, waitTimeout := 6000,
        waitForP := some (fun _ => false) },
      { pauseAfter := 200 } ]
    dur := fun _ => 5000
    path := fun _ => .blobAudio }

/-- A registry whose first step's `action` throws, followed by a healthy
step. -/
def scenarioThrow : Runner.Env :=
  { steps := [ { action := some .throws, pauseAfter := 100 }, { action := some .ok } ]
    dur := fun _ => 1000
    path := fun _ => .blobAudio }

/-- A run whose narration plays through browser speech synthesis (the
`/api/tts` fetch failed and `window.speechSynthesis` exists). -/
def scenarioBrowser : Runner.Env :=
  { steps := [ { narration := some "hello" } ]
    dur := fun _ => 3000
    path := fun _ => .browser }

/-- A one-step registry, for exercising the end-of-steps branch. -/
def envOneStep : Runner.Env :=
  { steps := [{}], dur := fun _ => 0, path := fun _ => .blobAudio }

/-- Advancement requested at the end of the registry while narration
*audio* (`demoAudio`) is still playing — as happens when the AI response
to the final chat query is being spoken through `demoSpeakAI` while the
last advancement timer fires. -/
def endStateAudio : Runner.DState :=
  { running := true, stepIndex := 1, timeouts := [], untracked := []
    audio := some (9999, .afterPlainNarr 0), speech := none, vq := none
    now := 100, log := [] }

/-- Advancement requested at the end of the registry while *browser
speech* is still playing. -/
def endStateSpeech : Runner.DState :=
  { running := true, stepIndex := 1, timeouts := [], untracked := []
    audio := none, speech := some (9999, .afterPlainNarr 0), vq := none
    now := 100, log := [] }

/-! Claim theorems. -/

/-- C1 (counterexample): `stopDemo()` does *not* cancel active browser
speech synthesis.  In a run whose narration fell back to browser speech,
the state reached right after `runDemo()` has an active utterance, and
the utterance is still active — untouched — after `stopDemo()`: the
source's `stopDemo` never calls `speechSynthesis.cancel()`.  This refutes
the claim's conjunct "cancels any active browser speech synthesis". -/
theorem C1_counterexample :
    (Runner.runDemo scenarioBrowser Runner.initState).speech
      = some (3000, .afterPlainNarr 0) ∧
    (Runner.stopDemo (Runner.runDemo scenarioBrowser Runner.initState)).speech
      = some (3000, .afterPlainNarr 0) := by
  constructor <;> decide

/-- C1 (amended): calling `stopDemo()` at any point synchronously clears
every tracked timer in `demoTimeouts`, pauses and detaches the playing
audio, and sets the running flag to false — so immediately afterwards
there are zero pending tracked timers and zero playing audio — and from
then on, however long the event loop keeps running, no tracked timer ever
fires and no audio element ever plays again.  (Browser speech synthesis,
however, is *not* cancelled: see the counterexample.) -/
theorem C1_amended_stop_teardown (env : Runner.Env) (s : Runner.DState) (fuel : Nat) :
    (Runner.stopDemo s).running = false ∧
    (Runner.stopDemo s).timeouts = [] ∧
    (Runner.stopDemo s).audio = none ∧
    Runner.Stopped (Runner.run env fuel (Runner.stopDemo s)) ∧
    Runner.firedCount (Runner.run env fuel (Runner.stopDemo s)).log
      = Runner.firedCount s.log := by
  have h := Runner.run_stopped env fuel (Runner.stopDemo s) (Runner.stopDemo_stopped s)
  refine ⟨rfl, rfl, rfl, h.1, ?_⟩
  rw [h.2]
  show Runner.firedCount (s.log ++ [(s.now, .stopped)]) = Runner.firedCount s.log
  rw [Runner.firedCount_append]
  simp [Runner.firedCount]

set_option maxRecDepth 20000 in
/-- C2: the step cursor `demoStepIndex` is monotone over every run and the
visited indices are strictly increasing (each step executed at most once,
in registry order); the spec's three-step scenario runs to completion
visiting exactly [0, 1, 2] with total elapsed time at least 100 + 2000 ms
and schedules advancement of each plain step exactly once; and a
narration end-of-speech callback that fires after a concurrent
`stopDemo()` is a no-op, so no double advancement is possible. -/
theorem C2_monotone_exactly_once :
    (∀ (env : Runner.Env) (fuel : Nat) (s : Runner.DState),
      s.stepIndex ≤ (Runner.run env fuel s).stepIndex) ∧
    (∀ (env : Runner.Env) (fuel : Nat) (s : Runner.DState),
      Runner.VisitInv s → Runner.VisitInv (Runner.run env fuel s)) ∧
    Runner.visiteds (Runner.run scenario3 40
      (Runner.runDemo scenario3 Runner.initState)).log = [0, 1, 2] ∧
    2100 ≤ (Runner.run scenario3 40 (Runner.runDemo scenario3 Runner.initState)).now ∧
    (Runner.run scenario3 40 (Runner.runDemo scenario3 Runner.initState)).log.countP
      (fun e => decide (e.2 = Runner.Ev.scheduledAdvance 0)) = 1 ∧
    (Runner.run scenario3 40 (Runner.runDemo scenario3 Runner.initState)).log.countP
      (fun e => decide (e.2 = Runner.Ev.scheduledAdvance 2)) = 1 ∧
    (∀ (env : Runner.Env) (idx : Nat) (s : Runner.DState), s.running = false →
      Runner.runCont env (.afterPlainNarr idx) s = s) := by
  refine ⟨fun env fuel s => (Runner.run_visit env fuel s).1,
    fun env fuel s h => (Runner.run_visit env fuel s).2 h,
    by decide, by decide, by decide, by decide, ?_⟩
  intro env idx s h
  simp [Runner.runCont, h]

/-- C2 (witness): the invariant holds of a concrete prefix of the
scenario run, and the guarded continuation is inert on a concrete stopped
state. -/
theorem C2_witness :
    Runner.VisitInv (Runner.run scenario3 5 Runner.initState) ∧
    Runner.runCont scenario3 (.afterPlainNarr 0) (Runner.stopDemo Runner.initState)
      = Runner.stopDemo Runner.initState := by
  constructor
  · exact C2_monotone_exactly_once.2.1 scenario3 5 Runner.initState
      ⟨List.Pairwise.nil, fun i hi => absurd hi (List.not_mem_nil i)⟩
  · exact C2_monotone_exactly_once.2.2.2.2.2.2 scenario3 0
      (Runner.stopDemo Runner.initState) rfl

/-- C3: `demoVoiceQuery` is a join, not a race.  With audio duration `Ta`
and typewriter duration `Tt = 40 * (text.length + 1)` (one 40ms tick per
character plus the final tick that sets `typeDone`), the completion
callback has fired — with timestamp `max Ta Tt` — at every observation
time from `max Ta Tt` on, and has not fired at any earlier time; this
covers both orderings `Ta < Tt` and `Ta > Tt`. -/
theorem C3_voice_query_join (Ta n T : Nat) (hTa : 0 < Ta) :
    (max Ta (40 * (n + 1)) ≤ T →
      (VQ.demoVoiceQuery Ta n T).fired = some (max Ta (40 * (n + 1)))) ∧
    (T < max Ta (40 * (n + 1)) → (VQ.demoVoiceQuery Ta n T).fired = none) := by
  constructor
  · intro h
    rw [VQ.demoVoiceQuery, VQ.fired_runAux Ta n hTa T, if_pos (by omega)]
  · intro h
    rw [VQ.demoVoiceQuery, VQ.fired_runAux Ta n hTa T, if_neg (by omega)]

/-- C3 (witness): with `Ta = 100 < Tt = 400` the callback fires at 400
and not at 399; with `Ta = 800 > Tt = 400` it fires at 800 and not at
799. -/
theorem C3_witness :
    (VQ.demoVoiceQuery 100 9 400).fired = some (max 100 (40 * (9 + 1))) ∧
    (VQ.demoVoiceQuery 100 9 399).fired = none ∧
    (VQ.demoVoiceQuery 800 9 800).fired = some (max 800 (40 * (9 + 1))) ∧
    (VQ.demoVoiceQuery 800 9 799).fired = none :=
  ⟨(C3_voice_query_join 100 9 400 (by decide)).1 (by decide),
   (C3_voice_query_join 100 9 399 (by decide)).2 (by decide),
   (C3_voice_query_join 800 9 800 (by decide)).1 (by decide),
   (C3_voice_query_join 800 9 799 (by decide)).2 (by decide)⟩

set_option maxRecDepth 20000 in
/-- C4 (counterexample): the timeout clock starts when the step is
*entered* (`started = Date.now()` before narration), not when polling
starts.  With 5000ms narration, `pauseAfter` 500 and `waitTimeout` 6000,
polling starts at 5500 and the never-true predicate causes advancement at
6500 — which is *not* within `completionTimeoutMs ± one poll interval` of
the polling start (that window is [10500, 12500]); the full runner
scenario logs `advanceAfterWait` at exactly 6500. -/
theorem C4_counterexample :
    Poll.pollWaitRun (fun _ => false) 0 6000 10 5500 = some 6500 ∧
    ¬ (5500 + 6000 - 1000 ≤ 6500 ∧ 6500 ≤ 5500 + 6000 + 1000) ∧
    (6500, Runner.Ev.advancedAfterWait 0) ∈
      (Runner.run scenarioTimeout 40
        (Runner.runDemo scenarioTimeout Runner.initState)).log := by
  refine ⟨by decide, by decide, by decide⟩

set_option maxRecDepth 20000 in
/-- C4 (amended): polls recur at a fixed 1000ms interval, and the timeout
clock runs from *step entry*: with a predicate that never becomes true,
`advanceAfterWait` is reached at the first poll tick strictly after
`started + (waitTimeout || 45000)` — never at or before that deadline,
and at most one poll interval after it (or at the very first tick when
polling begins past the deadline).  Expiry is never fatal: in the
concrete scenario the next step still executes (visited list [0, 1]). -/
theorem C4_amended_timeout_bound :
    (∀ (p : Nat → Bool), (∀ t, p t = false) →
      ∀ (started maxWait fuel t0 : Nat), started ≤ t0 →
        started + maxWait < t0 + 1000 * fuel →
        ∃ tAdv, Poll.pollWaitRun p started maxWait (fuel + 1) t0 = some tAdv ∧
          started + maxWait < tAdv ∧ tAdv ≤ max (started + maxWait + 1000) t0) ∧
    Runner.visiteds (Runner.run scenarioTimeout 40
      (Runner.runDemo scenarioTimeout Runner.initState)).log = [0, 1] := by
  exact ⟨fun p hp started maxWait fuel t0 h1 h2 =>
    Poll.pollWaitRun_timeout p hp started maxWait fuel t0 h1 h2, by decide⟩

/-- C4 (witness): the bound instantiated at the counterexample's
parameters. -/
theorem C4_witness :
    ∃ tAdv, Poll.pollWaitRun (fun _ => false) 0 6000 (10 + 1) 5500 = some tAdv ∧
      0 + 6000 < tAdv ∧ tAdv ≤ max (0 + 6000 + 1000) 5500 :=
  C4_amended_timeout_bound.1 (fun _ => false) (fun _ => rfl) 0 6000 10 5500
    (by decide) (by decide)

set_option maxRecDepth 20000 in
/-- C5: a throwing step `action` aborts `runNextDemoStep` before any
advancement is scheduled — `if (step.action) step.action();` has no
try/catch — so the run stalls forever: after the throwing step 0, no
timer, audio, speech or typewriter work is pending, the state is a fixed
point of the event loop, and step 1 is never visited at any fuel.  This
contradicts the claim (and §7 of the spec, which requires the failure to
be isolated so "the advancement schedule still fires"): the code is the
bug. -/
theorem C5_action_exception_stalls :
    Runner.visiteds (Runner.runDemo scenarioThrow Runner.initState).log = [0] ∧
    (0, Runner.Ev.actionThrew 0) ∈ (Runner.runDemo scenarioThrow Runner.initState).log ∧
    (Runner.runDemo scenarioThrow Runner.initState).timeouts = [] ∧
    (Runner.runDemo scenarioThrow Runner.initState).audio = none ∧
    (Runner.runDemo scenarioThrow Runner.initState).speech = none ∧
    (Runner.runDemo scenarioThrow Runner.initState).untracked = [] ∧
    Runner.loopStep scenarioThrow (Runner.runDemo scenarioThrow Runner.initState)
      = Runner.runDemo scenarioThrow Runner.initState ∧
    ∀ fuel, Runner.visiteds (Runner.run scenarioThrow fuel
      (Runner.runDemo scenarioThrow Runner.initState)).log = [0] := by
  refine ⟨by decide, by decide, by decide, by decide, by decide, by decide, by decide, ?_⟩
  intro fuel
  rw [Runner.run_of_fix scenarioThrow _ (by decide) fuel]
  decide

/-- C6: the toggle law.  Invoking `runDemo()` while `demoRunning` is true
executes exactly `stopDemo()`; hence on a non-running state with a
non-empty registry, `start(); start();` and `start(); stop();` produce
the same orchestrator state. -/
theorem C6_toggle (env : Runner.Env) :
    (∀ s : Runner.DState, s.running = true → Runner.runDemo env s = Runner.stopDemo s) ∧
    (∀ s : Runner.DState, s.running = false → 0 < env.steps.length →
      Runner.runDemo env (Runner.runDemo env s) = Runner.stopDemo (Runner.runDemo env s)) := by
  have tog : ∀ s : Runner.DState, s.running = true →
      Runner.runDemo env s = Runner.stopDemo s := by
    intro s h
    unfold Runner.runDemo
    rw [if_pos h]
  refine ⟨tog, fun s h hlen => tog _ ?_⟩
  unfold Runner.runDemo Runner.demoStart
  rw [if_neg (by simp [h])]
  apply Runner.runNext_running
  · simp [Runner.demoPrepare, h]
  · simpa [Runner.demoPrepare, h] using hlen

/-- C6 (witness): the toggle law at the concrete scenario registry. -/
theorem C6_witness :
    Runner.runDemo scenario3 (Runner.runDemo scenario3 Runner.initState)
      = Runner.stopDemo (Runner.runDemo scenario3 Runner.initState) :=
  (C6_toggle scenario3).2 Runner.initState rfl (by decide)

/-- C7: a synthesis-service failure (the `/api/tts` fetch errors or
returns non-ok) never halts the sequence: `demoSpeak` still issues
exactly one request, leaves the cache unchanged, and falls through to
`demoSpeakBrowser` — an utterance when `window.speechSynthesis` exists,
else `onEnd` on a bare 100ms timer; and in the runner that 100ms fallback
timer does run the `onEnd` continuation, so the step still finishes. -/
theorem C7_synthesis_fallback :
    (∀ (c : TTS.Cache) (text : String) (voice : Option String) (sa : Bool),
      (TTS.cacheGet c (TTS.ttsCacheKey (TTS.cleanText text) (voice.getD "narrator")) = none ∨
       TTS.cacheGet c (TTS.ttsCacheKey (TTS.cleanText text) (voice.getD "narrator"))
         = some .placeholder) →
      TTS.demoSpeak ⟨none, sa⟩ c text voice =
        { cache := c, fetches := 1, outcome := TTS.demoSpeakBrowser sa }) ∧
    TTS.demoSpeakBrowser true = .browserSpoke ∧
    TTS.demoSpeakBrowser false = .onEndTimer 100 ∧
    (∀ (env : Runner.Env) (k : Runner.SpeakCont) (s : Runner.DState),
      Runner.execUCb env (.fallbackOnEnd k) s = Runner.runCont env k s) := by
  refine ⟨?_, rfl, rfl, fun env k s => rfl⟩
  intro c text voice sa h
  simp only [TTS.demoSpeak]
  rcases h with h | h <;> rw [h] <;> rfl

/-- C7 (witness): a fresh cache, failing fetch, no browser synthesis:
the narration still resolves, through the 100ms `onEnd` timer. -/
theorem C7_witness :
    TTS.demoSpeak ⟨none, false⟩ [] "hello" none =
      { cache := [], fetches := 1, outcome := TTS.demoSpeakBrowser false } :=
  C7_synthesis_fallback.1 [] "hello" none false (Or.inl rfl)

/-- C8: resolve-then-re-resolve counts exactly one fetch.  Starting from
any cache without a resolved blob for the `(text, voice)` pair, a
successful `demoSpeak` issues one request and stores the blob; every
subsequent `demoSpeak` for the identical pair — whatever the service
would now answer — hits the cache, issues zero requests, and plays the
stored blob. -/
theorem C8_cache_round_trip (c : TTS.Cache) (text : String) (voice : Option String)
    (b : Nat) (sa : Bool) (env2 : TTS.SpeakEnv)
    (h : TTS.cacheGet c (TTS.ttsCacheKey (TTS.cleanText text) (voice.getD "narrator")) = none ∨
         TTS.cacheGet c (TTS.ttsCacheKey (TTS.cleanText text) (voice.getD "narrator"))
           = some .placeholder) :
    (TTS.demoSpeak ⟨some b, sa⟩ c text voice).fetches = 1 ∧
    TTS.cacheGet (TTS.demoSpeak ⟨some b, sa⟩ c text voice).cache
      (TTS.ttsCacheKey (TTS.cleanText text) (voice.getD "narrator")) = some (.blob b) ∧
    TTS.demoSpeak env2 (TTS.demoSpeak ⟨some b, sa⟩ c text voice).cache text voice =
      { cache := (TTS.demoSpeak ⟨some b, sa⟩ c text voice).cache
        fetches := 0
        outcome := .playedCached b } := by
  have h1 : TTS.demoSpeak ⟨some b, sa⟩ c text voice =
      { cache := TTS.cacheSet c
          (TTS.ttsCacheKey (TTS.cleanText text) (voice.getD "narrator")) (.blob b)
        fetches := 1
        outcome := .playedFetched b } := by
    simp only [TTS.demoSpeak]
    rcases h with h | h <;> rw [h] <;> rfl
  rw [h1]
  refine ⟨rfl, TTS.cacheGet_cacheSet c _ _, ?_⟩
  simp only [TTS.demoSpeak]
  rw [TTS.cacheGet_cacheSet]

/-- C8 (witness): the round trip on a fresh cache. -/
theorem C8_witness :
    (TTS.demoSpeak ⟨some 7, true⟩ [] "x" none).fetches = 1 ∧
    TTS.demoSpeak ⟨none, false⟩ (TTS.demoSpeak ⟨some 7, true⟩ [] "x" none).cache "x" none =
      { cache := (TTS.demoSpeak ⟨some 7, true⟩ [] "x" none).cache
        fetches := 0
        outcome := .playedCached 7 } :=
  ⟨(C8_cache_round_trip [] "x" none 7 true ⟨none, false⟩ (Or.inl rfl)).1,
   (C8_cache_round_trip [] "x" none 7 true ⟨none, false⟩ (Or.inl rfl)).2.2⟩

/-- C9 (counterexample): with the cursor at the end of the registry and
narration *audio* still playing (browser speech idle), `runNextDemoStep`
calls `stopDemo()` immediately — no grace deferral is scheduled and the
run flag drops at once — because the end-of-steps branch consults only
`speechSynthesis.speaking`, never `demoAudio`.  This refutes the claim's
"if narration audio … is still playing the runner defers termination". -/
theorem C9_counterexample :
    endStateAudio.audio.isSome = true ∧
    endStateAudio.speech = none ∧
    Runner.runNextDemoStep envOneStep endStateAudio = Runner.stopDemo endStateAudio ∧
    (Runner.runNextDemoStep envOneStep endStateAudio).running = false ∧
    (Runner.runNextDemoStep envOneStep endStateAudio).untracked
      = [(600, .removeOverlay)] := by
  refine ⟨rfl, rfl, by decide, by decide, by decide⟩

/-- C9 (amended): at or past the end of the registry, the runner defers
termination by an (untracked) 500ms timer — which runs `stopDemo()` when
it fires — exactly when *browser speech synthesis* is still speaking;
otherwise, including when blob narration audio is still playing, it calls
`stopDemo()` immediately. -/
theorem C9_amended_end_branch (env : Runner.Env) (s : Runner.DState)
    (hend : env.steps.length ≤ s.stepIndex) :
    (s.speech.isSome = true →
      Runner.runNextDemoStep env s = Runner.pushU 500 .deferredStop s) ∧
    (s.speech.isSome = false →
      Runner.runNextDemoStep env s = Runner.stopDemo s) ∧
    (∀ x : Runner.DState, Runner.execUCb env .deferredStop x = Runner.stopDemo x) := by
  refine ⟨?_, ?_, fun x => rfl⟩ <;> intro hsp <;> unfold Runner.runNextDemoStep <;>
    rw [if_pos (Or.inr hend)] <;> simp [hsp]

/-- C9 (witness): the deferral branch at a concrete end-of-registry state
with an active utterance. -/
theorem C9_witness :
    Runner.runNextDemoStep envOneStep endStateSpeech
      = Runner.pushU 500 .deferredStop endStateSpeech :=
  (C9_amended_end_branch envOneStep endStateSpeech (by decide)).1 rfl

/-- C10: `demoPreCacheAudio` writes the `null` placeholder and starts its
warm-up fetch; until that fetch resolves, `demoSpeak` for the identical
`(text, voice)` pair treats the placeholder as a miss (it is falsy) and
issues its own direct request — so two concurrent requests for the same
pair are possible: one from the warm-up, one from `demoSpeak`. -/
theorem C10_placeholder_double_fetch (c : TTS.Cache) (text voice : String)
    (fr : Option Nat) (sa : Bool)
    (h : TTS.cacheGet c (TTS.ttsCacheKey (TTS.cleanText text) voice) = none) :
    (TTS.demoPreCacheLine c text voice).2 = 1 ∧
    TTS.cacheGet (TTS.demoPreCacheLine c text voice).1
      (TTS.ttsCacheKey (TTS.cleanText text) voice) = some .placeholder ∧
    (TTS.demoSpeak ⟨fr, sa⟩ (TTS.demoPreCacheLine c text voice).1 text (some voice)).fetches
      = 1 := by
  have h1 : TTS.demoPreCacheLine c text voice =
      (TTS.cacheSet c (TTS.ttsCacheKey (TTS.cleanText text) voice) .placeholder, 1) := by
    simp only [TTS.demoPreCacheLine]
    rw [h]
    rfl
  rw [h1]
  refine ⟨rfl, TTS.cacheGet_cacheSet c _ _, ?_⟩
  simp only [TTS.demoSpeak]
  rw [show ((some voice).getD "narrator") = voice from rfl, TTS.cacheGet_cacheSet]
  cases fr <;> rfl

/-- C10 (witness): on a fresh cache, warm-up plus an overlapping
`demoSpeak` issue two requests in total for the same pair. -/
theorem C10_witness :
    (TTS.demoPreCacheLine [] "x" "narrator").2 = 1 ∧
    (TTS.demoSpeak ⟨none, true⟩ (TTS.demoPreCacheLine [] "x" "narrator").1 "x"
      (some "narrator")).fetches = 1 :=
  ⟨(C10_placeholder_double_fetch [] "x" "narrator" none true rfl).1,
   (C10_placeholder_double_fetch [] "x" "narrator" none true rfl).2.2⟩
